import Mathlib

/-!
Verification of the orchestration engine of the 1Numbers repository.

The definitions below are a shallow embedding of
packages/api/src/services/orchestrator/engine.py and state.py:
Python TypedDict states become Lean structures, Python string enums become
Lean inductives, the in-memory dict of active tasks becomes an insertion
ordered association list, timestamps become ticks of an explicit logical
clock threaded through the executor, and the provider call becomes an
oracle function from a call counter to a structured result or an error
message.  Event payloads are modelled as the event name together with a
snapshot of the task state at emission time and, for agent events, the
agent kind.  Async scheduling (worker pool, process queue loop,
cancellation of in-flight coroutines) is outside the shallow embedding;
the executor is modelled as the deterministic state transformer obtained
by running its await points in program order.
-/

namespace Orch

/-- Task status, mirroring class TaskStatus in state.py. -/
inductive TaskStatus where
  | pending
  | decomposing
  | queued
  | running
  | paused
  | completed
  | failed
  | cancelled
deriving DecidableEq, Repr

/-- Phase status, mirroring class PhaseStatus in state.py. -/
inductive PhaseStatus where
  | pending
  | running
  | completed
  | failed
  | skipped
deriving DecidableEq, Repr

/-- Execution status strings used by engine.py for agent executions. -/
inductive ExecStatus where
  | pending
  | running
  | completed
  | failed
deriving DecidableEq, Repr

/-- Structured provider result, mirroring the dict returned by
claude.generate and ollama.generate as consumed in engine.py. -/
structure ProviderResult where
  content : String
  model : String
  tokens_input : Nat
  tokens_output : Nat
  cost : Rat
deriving DecidableEq, Repr

/-- A provider oracle: the outcome of the n-th provider call made by the
executor, either a structured result or an error message string. -/
def Oracle : Type := Nat → Except String ProviderResult

/-- Agent execution record, mirroring AgentExecution in state.py.
The output dict with its single response key is modelled by the response
string itself. -/
structure AgentExecution where
  agent_type : String
  status : ExecStatus
  output : Option String
  error : Option String
  model_used : Option String
  tokens_input : Nat
  tokens_output : Nat
  cost : Rat
  started_at : Option Nat
  completed_at : Option Nat
  duration_ms : Option Nat
deriving DecidableEq, Repr

/-- Phase state, mirroring PhaseState in state.py. -/
structure PhaseState where
  number : Nat
  name : String
  description : String
  status : PhaseStatus
  parallel : Bool
  agents : List String
  executions : List AgentExecution
  started_at : Option Nat
  completed_at : Option Nat
deriving DecidableEq, Repr

/-- Entry of the per-task results dict: engine.py stores
output, tokens and cost per agent kind. -/
structure ResultSummary where
  output : String
  tokens : Nat
  cost : Rat
deriving DecidableEq, Repr

/-- A typed error record appended to the errors list of a task. -/
structure ErrorRecord where
  etype : String
  message : String
  timestamp : Nat
deriving DecidableEq, Repr

/-- A model reference of a mode config: provider name and model name. -/
structure ModelRef where
  provider : String
  model : String
deriving DecidableEq, Repr

/-- Mode configuration, mirroring the entries of MODE_CONFIGS in
engine.py. -/
structure ModeConfig where
  decompositionDepth : String
  parallelizationLevel : String
  validationDepth : String
  requiresHumanApproval : Bool
  primaryModel : ModelRef
  fallbackModel : ModelRef
  requiredAgents : List String
  optionalAgents : List String
  taskTimeout : Nat
  maxRetries : Nat
  costLimit : Option Rat
deriving DecidableEq, Repr

/-- Task state, mirroring TaskState in state.py.  The results dict is an
insertion ordered association list from agent kind to summary. -/
structure TaskState where
  task_id : String
  description : String
  project_id : Option String
  mode : String
  status : TaskStatus
  priority : Int
  phases : List PhaseState
  current_phase : Nat
  results : List (String × ResultSummary)
  files_modified : List String
  errors : List ErrorRecord
  tokens_used : Nat
  estimated_cost : Rat
  created_at : Nat
  started_at : Option Nat
  completed_at : Option Nat
  mode_config : ModeConfig
deriving DecidableEq, Repr

/-- An emitted event: its name, a snapshot of the task state at emission
time, and the agent kind for agent scoped events. -/
structure Event where
  name : String
  snap : TaskState
  agent : Option String
deriving DecidableEq, Repr

/-- Execution context threaded through the executor: a logical clock
standing for datetime.utcnow readings, the number of provider calls made
so far, and the log of emitted events. -/
structure Ctx where
  clock : Nat
  calls : Nat
  events : List Event
deriving DecidableEq, Repr

/-- Engine level state, mirroring the fields of OrchestratorEngine used by
submit_task and cancel_task: the current default mode, the dict of active
tasks, the priority queue of task ids, and the set of running worker ids.
The logical clock is the embedding of wall clock readings. -/
structure EngineState where
  current_mode : String
  active_tasks : List (String × TaskState)
  task_queue : List String
  workers : List String
  clock : Nat
deriving DecidableEq, Repr

/-- Python dict assignment on an insertion ordered association list:
replace the value at the key if present, else append the binding. -/
def dictSet {α : Type} (m : List (String × α)) (k : String) (v : α) : List (String × α) :=
  match m with
  | [] => [(k, v)]
  | (k1, v1) :: t => if k1 = k then (k, v) :: t else (k1, v1) :: dictSet t k v

/-- Python dict lookup on an association list. -/
def dictGet {α : Type} (m : List (String × α)) (k : String) : Option α :=
  (m.find? fun p => p.1 == k).map fun p => p.2

/-- The SPEED entry of MODE_CONFIGS in engine.py. -/
def speedConfig : ModeConfig where
  decompositionDepth := "shallow"
  parallelizationLevel := "aggressive"
  validationDepth := "minimal"
  requiresHumanApproval := false
  primaryModel := ⟨"claude", "claude-3-5-sonnet-20241022"⟩
  fallbackModel := ⟨"ollama", "codellama:7b"⟩
  requiredAgents := ["implement"]
  optionalAgents := []
  taskTimeout := 300000
  maxRetries := 1
  costLimit := none

/-- The QUALITY entry of MODE_CONFIGS in engine.py. -/
def qualityConfig : ModeConfig where
  decompositionDepth := "deep"
  parallelizationLevel := "balanced"
  validationDepth := "comprehensive"
  requiresHumanApproval := true
  primaryModel := ⟨"claude", "claude-opus-4-5-20251101"⟩
  fallbackModel := ⟨"claude", "claude-3-5-sonnet-20241022"⟩
  requiredAgents := ["concept", "architect", "implement", "test", "review", "docs"]
  optionalAgents := ["security", "optimize"]
  taskTimeout := 900000
  maxRetries := 3
  costLimit := none

/-- The AUTONOMY entry of MODE_CONFIGS in engine.py. -/
def autonomyConfig : ModeConfig where
  decompositionDepth := "deep"
  parallelizationLevel := "balanced"
  validationDepth := "standard"
  requiresHumanApproval := false
  primaryModel := ⟨"claude", "claude-opus-4-5-20251101"⟩
  fallbackModel := ⟨"claude", "claude-3-5-sonnet-20241022"⟩
  requiredAgents := ["concept", "architect", "implement", "test", "review", "docs", "deploy"]
  optionalAgents := ["security", "optimize"]
  taskTimeout := 1200000
  maxRetries := 3
  costLimit := none

/-- The COST entry of MODE_CONFIGS in engine.py. -/
def costConfig : ModeConfig where
  decompositionDepth := "shallow"
  parallelizationLevel := "conservative"
  validationDepth := "minimal"
  requiresHumanApproval := false
  primaryModel := ⟨"ollama", "codellama:7b"⟩
  fallbackModel := ⟨"claude", "claude-3-5-haiku-20241022"⟩
  requiredAgents := ["implement", "test"]
  optionalAgents := []
  taskTimeout := 600000
  maxRetries := 2
  costLimit := some 1

/-- The MODE_CONFIGS registry of engine.py. -/
def MODE_CONFIGS : List (String × ModeConfig) :=
  [("SPEED", speedConfig), ("QUALITY", qualityConfig),
   ("AUTONOMY", autonomyConfig), ("COST", costConfig)]

/-- Registry lookup: MODE_CONFIGS.get with no default. -/
def modeConfigsGet (m : String) : Option ModeConfig :=
  dictGet MODE_CONFIGS m

/-- create_initial_task_state from state.py. -/
def createInitialTaskState (task_id description mode : String) (mode_config : ModeConfig)
    (project_id : Option String) (priority : Int) (now : Nat) : TaskState where
  task_id := task_id
  description := description
  project_id := project_id
  mode := mode
  status := TaskStatus.pending
  priority := priority
  phases := []
  current_phase := 0
  results := []
  files_modified := []
  errors := []
  tokens_used := 0
  estimated_cost := 0
  created_at := now
  started_at := none
  completed_at := none
  mode_config := mode_config

/-- create_phase_state from state.py. -/
def createPhaseState (number : Nat) (name description : String)
    (agents : List String) (parallel : Bool) : PhaseState where
  number := number
  name := name
  description := description
  status := PhaseStatus.pending
  parallel := parallel
  agents := agents
  executions := []
  started_at := none
  completed_at := none

/-- create_agent_execution from state.py. -/
def createAgentExecution (agent_type : String) : AgentExecution where
  agent_type := agent_type
  status := ExecStatus.pending
  output := none
  error := none
  model_used := none
  tokens_input := 0
  tokens_output := 0
  cost := 0
  started_at := none
  completed_at := none
  duration_ms := none

/-- The phase_groups table of _decompose_task in engine.py:
agent group, phase name, phase description. -/
def phaseGroups : List (List String × String × String) :=
  [(["concept"], "Concept", "Analyze requirements"),
   (["architect"], "Architecture", "Design system architecture"),
   (["implement"], "Implementation", "Generate code"),
   (["test"], "Testing", "Create and run tests"),
   (["review", "security"], "Review", "Code review and security audit"),
   (["optimize"], "Optimization", "Performance optimization"),
   (["docs"], "Documentation", "Generate documentation"),
   (["deploy"], "Deployment", "Deploy changes")]

/-- The deep branch loop of _decompose_task: walk the group table keeping
groups with a nonempty intersection with required agents, numbering kept
phases with a running counter. -/
def deepPhasesAux (required : List String) :
    List (List String × String × String) → Nat → List PhaseState
  | [], _ => []
  | (agents, name, descr) :: gs, n =>
    let phase_agents := agents.filter fun a => required.contains a
    if phase_agents.isEmpty then
      deepPhasesAux required gs n
    else
      createPhaseState n name descr phase_agents (phase_agents.length > 1)
        :: deepPhasesAux required gs (n + 1)

/-- _decompose_task from engine.py, as the pure function from the mode
config to the phase list it stores into the task state. -/
def decomposeTask (mode_config : ModeConfig) : List PhaseState :=
  let required := mode_config.requiredAgents
  if mode_config.decompositionDepth = "shallow" then
    [createPhaseState 1 "Execution" "Execute all agents" required
      (mode_config.parallelizationLevel = "aggressive")]
  else
    deepPhasesAux required phaseGroups 1

/-- The sort key of submit_task: the priority of a queued task id, read
from the active task dict. -/
def queuePriority (active : List (String × TaskState)) (tid : String) : Int :=
  match dictGet active tid with
  | some st => st.priority
  | none => 0

/-- One step of a stable insertion sort by descending priority: the new
element is placed before the first element of strictly smaller priority,
hence after all earlier elements of equal priority. -/
def insertByPriority (pri : String → Int) (x : String) : List String → List String
  | [] => [x]
  | y :: ys => if pri y < pri x then x :: y :: ys else y :: insertByPriority pri x ys

/-- Stable sort by descending priority, the embedding of
list.sort with a priority key and reverse set, which Python guarantees to
be stable. -/
def sortByPriority (pri : String → Int) (l : List String) : List String :=
  l.foldl (fun acc x => insertByPriority pri x acc) []

/-- submit_task from engine.py: resolve the mode (a falsy mode argument
falls back to the current default mode), look the config up with QUALITY
as the dict-get default, create the initial state, store it in the active
task dict, append the id to the queue and re-sort the queue by descending
priority.  Returns the created state and the new engine state.  The
fire-and-forget queue processing coroutine is outside the state model. -/
def submitTask (eng : EngineState) (task_id description : String)
    (mode : Option String) (project_id : Option String) (priority : Int) :
    TaskState × EngineState :=
  let m := match mode with
    | none => eng.current_mode
    | some s => if s = "" then eng.current_mode else s
  let mode_config := (modeConfigsGet m).getD qualityConfig
  let state := createInitialTaskState task_id description m mode_config project_id priority eng.clock
  let active := dictSet eng.active_tasks task_id state
  let queue := sortByPriority (queuePriority active) (eng.task_queue ++ [task_id])
  (state, { eng with active_tasks := active, task_queue := queue, clock := eng.clock + 1 })

/-- cancel_task from engine.py: false if the id is absent or the status is
completed or failed; otherwise remove the worker if present, set the
status to cancelled with a completion timestamp, remove the id from the
queue, and return true. -/
def cancelTask (eng : EngineState) (task_id : String) : Bool × EngineState :=
  match dictGet eng.active_tasks task_id with
  | none => (false, eng)
  | some st =>
    if st.status = TaskStatus.completed ∨ st.status = TaskStatus.failed then
      (false, eng)
    else
      let st := { st with status := TaskStatus.cancelled, completed_at := some eng.clock }
      (true, { eng with
        workers := eng.workers.erase task_id,
        active_tasks := dictSet eng.active_tasks task_id st,
        task_queue := eng.task_queue.erase task_id,
        clock := eng.clock + 1 })

/-- An engine fresh from the constructor: default mode QUALITY per
config.py, no tasks, empty queue, no workers. -/
def engine0 : EngineState where
  current_mode := "QUALITY"
  active_tasks := []
  task_queue := []
  workers := []
  clock := 0

/-- Advance the logical clock by one tick. -/
def tick (ctx : Ctx) : Ctx :=
  { ctx with clock := ctx.clock + 1 }

/-- _emit_event: append one event to the log.  The Python payload (the
live state dict for task events, a partial dict for phase and agent
events) is modelled uniformly as a snapshot of the task state at emission
time plus the agent kind for agent scoped events. -/
def emit (ctx : Ctx) (name : String) (snap : TaskState) (agent : Option String) : Ctx :=
  { ctx with events := ctx.events ++ [⟨name, snap, agent⟩] }

/-- Replace the last element of a list, the embedding of mutating the
execution dict already appended to the phase. -/
def setLast {α : Type} (l : List α) (x : α) : List α :=
  l.dropLast ++ [x]

/-- _execute_agent from engine.py for one (task, phase, agent kind).
The phases list of the task is the concatenation done ++ phase :: rest,
and the returned task state keeps it in sync with the mutated phase,
embedding the aliasing of the phase dict inside state.phases.
Steps, in program order: create a fresh execution record, mark it running
with a start timestamp, append it to the phase, emit agent_started;
consult the provider oracle; on success fill the result fields, add the
token and cost totals to the task accumulators and store the result
summary; on error mark the record failed carrying the message and leave
the task untouched; always set the completion timestamp and duration and
emit agent_completed. -/
def executeAgent (oracle : Oracle) (done rest : List PhaseState) (agent_type : String)
    (st : TaskState) (ph : PhaseState) (ctx : Ctx) : TaskState × PhaseState × Ctx :=
  let started := ctx.clock
  let ex := { createAgentExecution agent_type with
    started_at := some started, status := ExecStatus.running }
  let ph := { ph with executions := ph.executions ++ [ex] }
  let st := { st with phases := done ++ ph :: rest }
  let ctx := tick ctx
  let ctx := emit ctx "agent_started" st (some agent_type)
  let r := oracle ctx.calls
  let ctx := { ctx with calls := ctx.calls + 1 }
  match r with
  | Except.ok res =>
    let ex := { ex with
      status := ExecStatus.completed,
      output := some res.content,
      model_used := some res.model,
      tokens_input := res.tokens_input,
      tokens_output := res.tokens_output,
      cost := res.cost,
      completed_at := some ctx.clock,
      duration_ms := some (ctx.clock - started) }
    let ph := { ph with executions := setLast ph.executions ex }
    let st := { st with
      tokens_used := st.tokens_used + (res.tokens_input + res.tokens_output),
      estimated_cost := st.estimated_cost + res.cost,
      results := dictSet st.results agent_type
        ⟨res.content, res.tokens_input + res.tokens_output, res.cost⟩ }
    let st := { st with phases := done ++ ph :: rest }
    let ctx := tick ctx
    let ctx := emit ctx "agent_completed" st (some agent_type)
    (st, ph, ctx)
  | Except.error msg =>
    let ex := { ex with
      status := ExecStatus.failed,
      error := some msg,
      completed_at := some ctx.clock,
      duration_ms := some (ctx.clock - started) }
    let ph := { ph with executions := setLast ph.executions ex }
    let st := { st with phases := done ++ ph :: rest }
    let ctx := tick ctx
    let ctx := emit ctx "agent_completed" st (some agent_type)
    (st, ph, ctx)

/-- The sequential loop of _execute_phase: run agents one at a time; after
each, inspect the last execution record of the phase and stop if it
failed. -/
def runSeqAgents (oracle : Oracle) (done rest : List PhaseState) :
    List String → TaskState → PhaseState → Ctx → TaskState × PhaseState × Ctx
  | [], st, ph, ctx => (st, ph, ctx)
  | a :: more, st, ph, ctx =>
    let out := executeAgent oracle done rest a st ph ctx
    match out.2.1.executions.getLast? with
    | some e =>
      if e.status = ExecStatus.failed then out
      else runSeqAgents oracle done rest more out.1 out.2.1 out.2.2
    | none => runSeqAgents oracle done rest more out.1 out.2.1 out.2.2

/-- The parallel branch of _execute_phase: asyncio.gather launches every
agent and waits for all of them, with no stop-on-failure check.  In the
shallow embedding the concurrent interleaving is sequentialized in launch
order. -/
def runAllAgents (oracle : Oracle) (done rest : List PhaseState) :
    List String → TaskState → PhaseState → Ctx → TaskState × PhaseState × Ctx
  | [], st, ph, ctx => (st, ph, ctx)
  | a :: more, st, ph, ctx =>
    let out := executeAgent oracle done rest a st ph ctx
    runAllAgents oracle done rest more out.1 out.2.1 out.2.2

/-- The opening lines of _execute_phase: mark the phase running with a
start timestamp, sync it into the task phases, and emit phase_started. -/
def startPhase (done rest : List PhaseState) (st : TaskState) (ph : PhaseState)
    (ctx : Ctx) : TaskState × PhaseState × Ctx :=
  let ph := { ph with status := PhaseStatus.running, started_at := some ctx.clock }
  let st := { st with phases := done ++ ph :: rest }
  let ctx := emit (tick ctx) "phase_started" st none
  (st, ph, ctx)

/-- The closing lines of _execute_phase: set the phase status to failed
exactly when some execution failed, stamp the completion time, sync the
phase into the task, and emit phase_completed. -/
def finishPhase (done rest : List PhaseState) (out : TaskState × PhaseState × Ctx) :
    TaskState × PhaseState × Ctx :=
  let failed := out.2.1.executions.any fun e => e.status == ExecStatus.failed
  let ph := { out.2.1 with
    status := if failed then PhaseStatus.failed else PhaseStatus.completed,
    completed_at := some out.2.2.clock }
  let st := { out.1 with phases := done ++ ph :: rest }
  let ctx := emit (tick out.2.2) "phase_completed" st none
  (st, ph, ctx)

/-- _execute_phase from engine.py: mark the phase running, emit
phase_started, run the agents in the parallel branch only when the
parallel flag is set and the phase has more than one agent, then set the
phase status to failed exactly when some execution failed, stamp the
completion time and emit phase_completed.  The except branch of the
Python code is unreachable here because _execute_agent recovers provider
errors internally. -/
def executePhase (oracle : Oracle) (done rest : List PhaseState)
    (st : TaskState) (ph : PhaseState) (ctx : Ctx) : TaskState × PhaseState × Ctx :=
  let s := startPhase done rest st ph ctx
  let out :=
    if ph.parallel ∧ ph.agents.length > 1 then
      runAllAgents oracle done rest ph.agents s.1 s.2.1 s.2.2
    else
      runSeqAgents oracle done rest ph.agents s.1 s.2.1 s.2.2
  finishPhase done rest out

/-- The phase loop of _execute_task: for each phase in order set
current_phase to its index and run it; if it ends failed, set the task
status to failed and break, leaving the later phases untouched. -/
def runPhases (oracle : Oracle) :
    List PhaseState → List PhaseState → TaskState → Ctx → TaskState × Ctx
  | _, [], st, ctx => (st, ctx)
  | done, ph :: rest, st, ctx =>
    let st := { st with current_phase := done.length }
    let out := executePhase oracle done rest st ph ctx
    if out.2.1.status = PhaseStatus.failed then
      ({ out.1 with status := TaskStatus.failed }, out.2.2)
    else
      runPhases oracle (done ++ [out.2.1]) rest out.1 out.2.2

/-- The opening lines of _execute_task: mark the task decomposing with a
start timestamp and emit task_started. -/
def startTask (st : TaskState) (ctx : Ctx) : TaskState × Ctx :=
  let st := { st with status := TaskStatus.decomposing, started_at := some ctx.clock }
  (st, emit (tick ctx) "task_started" st none)

/-- The decomposition lines of _execute_task: store the decomposed
phases, mark the task running, and emit task_decomposed. -/
def decomposeStep (st : TaskState) (ctx : Ctx) : TaskState × Ctx :=
  let st := { st with phases := decomposeTask st.mode_config }
  let st := { st with status := TaskStatus.running }
  (st, emit ctx "task_decomposed" st none)

/-- The closing lines of _execute_task: if the status is still running,
mark the task completed with a completion timestamp; then emit the event
named task_completed.  That final emit is unconditional on the
non-exception path, so it is reached whether or not a phase failed. -/
def finishTask (out : TaskState × Ctx) : TaskState × Ctx :=
  let next :=
    if out.1.status = TaskStatus.running then
      ({ out.1 with status := TaskStatus.completed, completed_at := some out.2.clock },
        tick out.2)
    else
      out
  (next.1, emit next.2 "task_completed" next.1 none)

/-- _execute_task from engine.py, lines 264 to 298 (the non-exception
path; the generic except branch is unreachable in the embedding since
phase and agent runners recover their errors internally): mark the task
decomposing with a start timestamp, emit task_started, store the
decomposed phases, mark it running, emit task_decomposed, run the phase
loop, and finish as above. -/
def executeTask (oracle : Oracle) (st : TaskState) (ctx : Ctx) : TaskState × Ctx :=
  let s1 := startTask st ctx
  let s2 := decomposeStep s1.1 s1.2
  finishTask (runPhases oracle [] s2.1.phases s2.1 s2.2)

/-- The observable signature of a phase: number, name, agent list and
parallel flag. -/
structure PhaseSig where
  number : Nat
  name : String
  agents : List String
  parallel : Bool
deriving DecidableEq, Repr

/-- Project a phase state to its signature. -/
def phaseSig (ph : PhaseState) : PhaseSig :=
  ⟨ph.number, ph.name, ph.agents, ph.parallel⟩

/-- The eight canonical groups of the specification, section 4.4, in
order: phase name and agent group. -/
def specGroupTable : List (String × List String) :=
  [("Concept", ["concept"]),
   ("Architecture", ["architect"]),
   ("Implementation", ["implement"]),
   ("Testing", ["test"]),
   ("Review", ["review", "security"]),
   ("Optimization", ["optimize"]),
   ("Documentation", ["docs"]),
   ("Deployment", ["deploy"])]

/-- Deep decomposition as worded by the specification: intersect the
required agents with each canonical group in order, skip empty
intersections, number the kept phases consecutively from 1, and set the
parallel flag of a phase exactly when it contains more than one agent. -/
def specDeepPhases (required : List String) : List PhaseSig :=
  (((specGroupTable.map fun g => (g.1, g.2.filter fun a => a ∈ required)).filter
      fun g => !g.2.isEmpty).enumFrom 1).map
    fun p => ⟨p.1, p.2.1, p.2.2, p.2.2.length > 1⟩

/-- Token contribution of one execution to the completed-only sum. -/
def execTok (e : AgentExecution) : Nat :=
  if e.status = ExecStatus.completed then e.tokens_input + e.tokens_output else 0

/-- Cost contribution of one execution to the completed-only sum. -/
def execCost (e : AgentExecution) : Rat :=
  if e.status = ExecStatus.completed then e.cost else 0

/-- Sum of tokens of completed executions of one phase. -/
def phaseTok (ph : PhaseState) : Nat :=
  (ph.executions.map execTok).sum

/-- Sum of costs of completed executions of one phase. -/
def phaseCost (ph : PhaseState) : Rat :=
  (ph.executions.map execCost).sum

/-- Sum of tokens of completed executions over all phases of a task. -/
def taskTok (st : TaskState) : Nat :=
  (st.phases.map phaseTok).sum

/-- Sum of costs of completed executions over all phases of a task. -/
def taskCost (st : TaskState) : Rat :=
  (st.phases.map phaseCost).sum

/-- The cost and token accounting invariant: the task accumulators equal
the completed-only sums over all executions of all phases. -/
def accountingInvariant (st : TaskState) : Prop :=
  st.tokens_used = taskTok st ∧ st.estimated_cost = taskCost st

/-- Event log extension whose new events all carry snapshots satisfying
the accounting invariant. -/
def EvExt (ctx ctx2 : Ctx) : Prop :=
  ∃ new, ctx2.events = ctx.events ++ new ∧ ∀ e ∈ new, accountingInvariant e.snap

/-- A provider oracle whose every call raises, with a fixed message. -/
def oracleErr : Oracle := fun _ => Except.error "provider down"

/-- A freshly submitted task under the SPEED mode snapshot. -/
def speedTask0 : TaskState :=
  createInitialTaskState "t1" "build the feature" "SPEED" speedConfig none 0 0

/-- An execution context at clock zero with no prior events. -/
def ctx0 : Ctx := ⟨0, 0, []⟩

theorem dictGet_dictSet_self {α : Type} (m : List (String × α)) (k : String) (v : α) :
    dictGet (dictSet m k v) k = some v := by
  induction m with
  | nil => simp [dictSet, dictGet]
  | cons p t ih =>
    obtain ⟨k1, v1⟩ := p
    by_cases h : k1 = k
    · simp [dictSet, dictGet, h]
    · simpa [dictSet, dictGet, h] using ih

theorem insertByPriority_perm (pri : String → Int) (x : String) (l : List String) :
    (insertByPriority pri x l).Perm (x :: l) := by
  induction l with
  | nil => exact List.Perm.refl _
  | cons y ys ih =>
    simp only [insertByPriority]
    split
    · exact List.Perm.refl _
    · exact (ih.cons y).trans (List.Perm.swap x y ys)

theorem sortByPriority_perm (pri : String → Int) (l : List String) :
    (sortByPriority pri l).Perm l := by
  suffices h : ∀ (l acc : List String),
      (l.foldl (fun acc x => insertByPriority pri x acc) acc).Perm (acc ++ l) by
    simpa using h l []
  intro l
  induction l with
  | nil => intro acc; simp
  | cons x xs ih =>
    intro acc
    refine (ih (insertByPriority pri x acc)).trans ?_
    refine (List.Perm.append_right xs (insertByPriority_perm pri x acc)).trans ?_
    exact List.perm_middle.symm

theorem sortByPriority_count (pri : String → Int) (l : List String) (y : String) :
    (sortByPriority pri l).count y = l.count y :=
  (sortByPriority_perm pri l).count_eq y

theorem EvExt_refl (ctx : Ctx) : EvExt ctx ctx := ⟨[], by simp, by simp⟩

theorem EvExt_trans {c1 c2 c3 : Ctx} (h1 : EvExt c1 c2) (h2 : EvExt c2 c3) : EvExt c1 c3 := by
  obtain ⟨n1, e1, a1⟩ := h1
  obtain ⟨n2, e2, a2⟩ := h2
  refine ⟨n1 ++ n2, by rw [e2, e1, List.append_assoc], ?_⟩
  intro e he
  rcases List.mem_append.mp he with h | h
  · exact a1 e h
  · exact a2 e h

theorem EvExt_emit_of (c1 c2 : Ctx) (h2 : c2.events = c1.events) (n : String)
    (s : TaskState) (ag : Option String) (h : accountingInvariant s) :
    EvExt c1 (emit c2 n s ag) := by
  refine ⟨[⟨n, s, ag⟩], by simp [emit, h2], ?_⟩
  intro e he
  simp only [List.mem_singleton] at he
  subst he
  exact h

theorem phaseTok_append_exec (ph : PhaseState) (ex : AgentExecution) :
    phaseTok { ph with executions := ph.executions ++ [ex] } = phaseTok ph + execTok ex := by
  simp [phaseTok]

theorem phaseCost_append_exec (ph : PhaseState) (ex : AgentExecution) :
    phaseCost { ph with executions := ph.executions ++ [ex] } = phaseCost ph + execCost ex := by
  simp [phaseCost]

theorem taskTok_split (st : TaskState) (done rest : List PhaseState) (ph : PhaseState)
    (h : st.phases = done ++ ph :: rest) :
    taskTok st = (done.map phaseTok).sum + (phaseTok ph + (rest.map phaseTok).sum) := by
  simp [taskTok, h]

theorem taskCost_split (st : TaskState) (done rest : List PhaseState) (ph : PhaseState)
    (h : st.phases = done ++ ph :: rest) :
    taskCost st = (done.map phaseCost).sum + (phaseCost ph + (rest.map phaseCost).sum) := by
  simp [taskCost, h]

theorem phaseTok_eq_of_executions {ph1 ph2 : PhaseState}
    (h : ph1.executions = ph2.executions) : phaseTok ph1 = phaseTok ph2 := by
  simp [phaseTok, h]

theorem phaseCost_eq_of_executions {ph1 ph2 : PhaseState}
    (h : ph1.executions = ph2.executions) : phaseCost ph1 = phaseCost ph2 := by
  simp [phaseCost, h]

theorem inv_replace_phase (st : TaskState) (done rest : List PhaseState)
    (ph ph2 : PhaseState) (hst : st.phases = done ++ ph :: rest)
    (hinv : accountingInvariant st) (htok : phaseTok ph2 = phaseTok ph)
    (hcost : phaseCost ph2 = phaseCost ph) :
    accountingInvariant { st with phases := done ++ ph2 :: rest } := by
  obtain ⟨ht, hc⟩ := hinv
  rw [taskTok_split st done rest ph hst] at ht
  rw [taskCost_split st done rest ph hst] at hc
  refine ⟨?_, ?_⟩
  · simp only [taskTok]
    rw [List.map_append, List.sum_append, List.map_cons, List.sum_cons, htok]
    simpa using ht
  · simp only [taskCost]
    rw [List.map_append, List.sum_append, List.map_cons, List.sum_cons, hcost]
    simpa using hc

theorem executeAgent_inv (oracle : Oracle) (done rest : List PhaseState) (a : String)
    (st : TaskState) (ph : PhaseState) (ctx : Ctx)
    (hst : st.phases = done ++ ph :: rest) (hinv : accountingInvariant st) :
    (executeAgent oracle done rest a st ph ctx).1.phases
        = done ++ (executeAgent oracle done rest a st ph ctx).2.1 :: rest ∧
    accountingInvariant (executeAgent oracle done rest a st ph ctx).1 ∧
    EvExt ctx (executeAgent oracle done rest a st ph ctx).2.2 := by
  obtain ⟨ht, hc⟩ := hinv
  rw [taskTok_split st done rest ph hst] at ht
  rw [taskCost_split st done rest ph hst] at hc
  cases h : oracle ctx.calls with
  | ok r =>
    simp only [executeAgent, tick, emit, setLast, h, List.dropLast_concat,
      List.append_assoc, List.singleton_append]
    refine ⟨trivial, ⟨?_, ?_⟩, ?_⟩
    · simp only [taskTok]
      rw [List.map_append, List.sum_append, List.map_cons, List.sum_cons,
        phaseTok_append_exec, ht]
      simp [execTok]
      omega
    · simp only [taskCost]
      rw [List.map_append, List.sum_append, List.map_cons, List.sum_cons,
        phaseCost_append_exec, hc]
      simp [execCost]
      ring
    · refine ⟨_, rfl, ?_⟩
      intro e he
      simp only [List.mem_cons, List.not_mem_nil, or_false] at he
      rcases he with rfl | rfl
      · refine ⟨?_, ?_⟩
        · simp only [taskTok]
          rw [List.map_append, List.sum_append, List.map_cons, List.sum_cons,
            phaseTok_append_exec, ht]
          simp [execTok]
        · simp only [taskCost]
          rw [List.map_append, List.sum_append, List.map_cons, List.sum_cons,
            phaseCost_append_exec, hc]
          simp [execCost]
      · refine ⟨?_, ?_⟩
        · simp only [taskTok]
          rw [List.map_append, List.sum_append, List.map_cons, List.sum_cons,
            phaseTok_append_exec, ht]
          simp [execTok]
          omega
        · simp only [taskCost]
          rw [List.map_append, List.sum_append, List.map_cons, List.sum_cons,
            phaseCost_append_exec, hc]
          simp [execCost]
          ring
  | error msg =>
    simp only [executeAgent, tick, emit, setLast, h, List.dropLast_concat,
      List.append_assoc, List.singleton_append]
    refine ⟨trivial, ⟨?_, ?_⟩, ?_⟩
    · simp only [taskTok]
      rw [List.map_append, List.sum_append, List.map_cons, List.sum_cons,
        phaseTok_append_exec, ht]
      simp [execTok]
    · simp only [taskCost]
      rw [List.map_append, List.sum_append, List.map_cons, List.sum_cons,
        phaseCost_append_exec, hc]
      simp [execCost]
    · refine ⟨_, rfl, ?_⟩
      intro e he
      simp only [List.mem_cons, List.not_mem_nil, or_false] at he
      rcases he with rfl | rfl
      · refine ⟨?_, ?_⟩
        · simp only [taskTok]
          rw [List.map_append, List.sum_append, List.map_cons, List.sum_cons,
            phaseTok_append_exec, ht]
          simp [execTok]
        · simp only [taskCost]
          rw [List.map_append, List.sum_append, List.map_cons, List.sum_cons,
            phaseCost_append_exec, hc]
          simp [execCost]
      · refine ⟨?_, ?_⟩
        · simp only [taskTok]
          rw [List.map_append, List.sum_append, List.map_cons, List.sum_cons,
            phaseTok_append_exec, ht]
          simp [execTok]
        · simp only [taskCost]
          rw [List.map_append, List.sum_append, List.map_cons, List.sum_cons,
            phaseCost_append_exec, hc]
          simp [execCost]

theorem runSeqAgents_inv (oracle : Oracle) (done rest : List PhaseState) :
    ∀ (agents : List String) (st : TaskState) (ph : PhaseState) (ctx : Ctx),
      st.phases = done ++ ph :: rest → accountingInvariant st →
      (runSeqAgents oracle done rest agents st ph ctx).1.phases
          = done ++ (runSeqAgents oracle done rest agents st ph ctx).2.1 :: rest ∧
      accountingInvariant (runSeqAgents oracle done rest agents st ph ctx).1 ∧
      EvExt ctx (runSeqAgents oracle done rest agents st ph ctx).2.2 := by
  intro agents
  induction agents with
  | nil =>
    intro st ph ctx hst hinv
    exact ⟨hst, hinv, EvExt_refl ctx⟩
  | cons a more ih =>
    intro st ph ctx hst hinv
    obtain ⟨hph, hinv2, hext⟩ := executeAgent_inv oracle done rest a st ph ctx hst hinv
    cases hlast : (executeAgent oracle done rest a st ph ctx).2.1.executions.getLast? with
    | none =>
      simp only [runSeqAgents, hlast]
      obtain ⟨h1, h2, h3⟩ := ih (executeAgent oracle done rest a st ph ctx).1
        (executeAgent oracle done rest a st ph ctx).2.1
        (executeAgent oracle done rest a st ph ctx).2.2 hph hinv2
      exact ⟨h1, h2, EvExt_trans hext h3⟩
    | some e =>
      simp only [runSeqAgents, hlast]
      by_cases hf : e.status = ExecStatus.failed
      · rw [if_pos hf]
        exact ⟨hph, hinv2, hext⟩
      · rw [if_neg hf]
        obtain ⟨h1, h2, h3⟩ := ih (executeAgent oracle done rest a st ph ctx).1
          (executeAgent oracle done rest a st ph ctx).2.1
          (executeAgent oracle done rest a st ph ctx).2.2 hph hinv2
        exact ⟨h1, h2, EvExt_trans hext h3⟩

theorem runAllAgents_inv (oracle : Oracle) (done rest : List PhaseState) :
    ∀ (agents : List String) (st : TaskState) (ph : PhaseState) (ctx : Ctx),
      st.phases = done ++ ph :: rest → accountingInvariant st →
      (runAllAgents oracle done rest agents st ph ctx).1.phases
          = done ++ (runAllAgents oracle done rest agents st ph ctx).2.1 :: rest ∧
      accountingInvariant (runAllAgents oracle done rest agents st ph ctx).1 ∧
      EvExt ctx (runAllAgents oracle done rest agents st ph ctx).2.2 := by
  intro agents
  induction agents with
  | nil =>
    intro st ph ctx hst hinv
    exact ⟨hst, hinv, EvExt_refl ctx⟩
  | cons a more ih =>
    intro st ph ctx hst hinv
    obtain ⟨hph, hinv2, hext⟩ := executeAgent_inv oracle done rest a st ph ctx hst hinv
    simp only [runAllAgents]
    obtain ⟨h1, h2, h3⟩ := ih (executeAgent oracle done rest a st ph ctx).1
      (executeAgent oracle done rest a st ph ctx).2.1
      (executeAgent oracle done rest a st ph ctx).2.2 hph hinv2
    exact ⟨h1, h2, EvExt_trans hext h3⟩

theorem startPhase_inv (done rest : List PhaseState) (st : TaskState) (ph : PhaseState)
    (ctx : Ctx) (hst : st.phases = done ++ ph :: rest) (hinv : accountingInvariant st) :
    (startPhase done rest st ph ctx).1.phases
        = done ++ (startPhase done rest st ph ctx).2.1 :: rest ∧
    accountingInvariant (startPhase done rest st ph ctx).1 ∧
    EvExt ctx (startPhase done rest st ph ctx).2.2 := by
  have hinv1 : accountingInvariant (startPhase done rest st ph ctx).1 :=
    inv_replace_phase st done rest ph _ hst hinv (phaseTok_eq_of_executions rfl)
      (phaseCost_eq_of_executions rfl)
  exact ⟨rfl, hinv1, EvExt_emit_of ctx (tick ctx) rfl _ _ none hinv1⟩

theorem finishPhase_inv (done rest : List PhaseState) (out : TaskState × PhaseState × Ctx)
    (hph : out.1.phases = done ++ out.2.1 :: rest) (hinv : accountingInvariant out.1) :
    (finishPhase done rest out).1.phases
        = done ++ (finishPhase done rest out).2.1 :: rest ∧
    accountingInvariant (finishPhase done rest out).1 ∧
    EvExt out.2.2 (finishPhase done rest out).2.2 := by
  have hinv1 : accountingInvariant (finishPhase done rest out).1 :=
    inv_replace_phase out.1 done rest out.2.1 _ hph hinv (phaseTok_eq_of_executions rfl)
      (phaseCost_eq_of_executions rfl)
  exact ⟨rfl, hinv1, EvExt_emit_of out.2.2 (tick out.2.2) rfl _ _ none hinv1⟩

theorem executePhase_inv (oracle : Oracle) (done rest : List PhaseState)
    (st : TaskState) (ph : PhaseState) (ctx : Ctx)
    (hst : st.phases = done ++ ph :: rest) (hinv : accountingInvariant st) :
    (executePhase oracle done rest st ph ctx).1.phases
        = done ++ (executePhase oracle done rest st ph ctx).2.1 :: rest ∧
    accountingInvariant (executePhase oracle done rest st ph ctx).1 ∧
    EvExt ctx (executePhase oracle done rest st ph ctx).2.2 := by
  obtain ⟨hp1, hi1, he1⟩ := startPhase_inv done rest st ph ctx hst hinv
  by_cases hb : ph.parallel ∧ ph.agents.length > 1
  · have hep : executePhase oracle done rest st ph ctx = finishPhase done rest
        (runAllAgents oracle done rest ph.agents (startPhase done rest st ph ctx).1
          (startPhase done rest st ph ctx).2.1 (startPhase done rest st ph ctx).2.2) := by
      simp only [executePhase]
      rw [if_pos hb]
    obtain ⟨hp2, hi2, he2⟩ := runAllAgents_inv oracle done rest ph.agents
      (startPhase done rest st ph ctx).1 (startPhase done rest st ph ctx).2.1
      (startPhase done rest st ph ctx).2.2 hp1 hi1
    obtain ⟨hp3, hi3, he3⟩ := finishPhase_inv done rest
      (runAllAgents oracle done rest ph.agents (startPhase done rest st ph ctx).1
        (startPhase done rest st ph ctx).2.1 (startPhase done rest st ph ctx).2.2) hp2 hi2
    rw [hep]
    exact ⟨hp3, hi3, EvExt_trans (EvExt_trans he1 he2) he3⟩
  · have hep : executePhase oracle done rest st ph ctx = finishPhase done rest
        (runSeqAgents oracle done rest ph.agents (startPhase done rest st ph ctx).1
          (startPhase done rest st ph ctx).2.1 (startPhase done rest st ph ctx).2.2) := by
      simp only [executePhase]
      rw [if_neg hb]
    obtain ⟨hp2, hi2, he2⟩ := runSeqAgents_inv oracle done rest ph.agents
      (startPhase done rest st ph ctx).1 (startPhase done rest st ph ctx).2.1
      (startPhase done rest st ph ctx).2.2 hp1 hi1
    obtain ⟨hp3, hi3, he3⟩ := finishPhase_inv done rest
      (runSeqAgents oracle done rest ph.agents (startPhase done rest st ph ctx).1
        (startPhase done rest st ph ctx).2.1 (startPhase done rest st ph ctx).2.2) hp2 hi2
    rw [hep]
    exact ⟨hp3, hi3, EvExt_trans (EvExt_trans he1 he2) he3⟩

theorem runPhases_inv (oracle : Oracle) :
    ∀ (pending done : List PhaseState) (st : TaskState) (ctx : Ctx),
      st.phases = done ++ pending → accountingInvariant st →
      accountingInvariant (runPhases oracle done pending st ctx).1 ∧
      EvExt ctx (runPhases oracle done pending st ctx).2 := by
  intro pending
  induction pending with
  | nil =>
    intro done st ctx hst hinv
    exact ⟨hinv, EvExt_refl ctx⟩
  | cons ph rest ih =>
    intro done st ctx hst hinv
    have hst1 : ({ st with current_phase := done.length } : TaskState).phases
        = done ++ ph :: rest := hst
    have hinv1 : accountingInvariant { st with current_phase := done.length } := hinv
    obtain ⟨hp2, hi2, he2⟩ := executePhase_inv oracle done rest
      { st with current_phase := done.length } ph ctx hst1 hinv1
    simp only [runPhases]
    by_cases hf : (executePhase oracle done rest { st with current_phase := done.length }
        ph ctx).2.1.status = PhaseStatus.failed
    · rw [if_pos hf]
      exact ⟨hi2, he2⟩
    · rw [if_neg hf]
      have hst2 : (executePhase oracle done rest { st with current_phase := done.length }
          ph ctx).1.phases = (done ++ [(executePhase oracle done rest
            { st with current_phase := done.length } ph ctx).2.1]) ++ rest := by
        rw [hp2]
        simp
      obtain ⟨hi3, he3⟩ := ih
        (done ++ [(executePhase oracle done rest
          { st with current_phase := done.length } ph ctx).2.1])
        (executePhase oracle done rest { st with current_phase := done.length } ph ctx).1
        (executePhase oracle done rest { st with current_phase := done.length } ph ctx).2.2
        hst2 hi2
      exact ⟨hi3, EvExt_trans he2 he3⟩

theorem deepPhasesAux_executions (required : List String) :
    ∀ (gs : List (List String × String × String)) (n : Nat),
      ∀ p ∈ deepPhasesAux required gs n, p.executions = [] := by
  intro gs
  induction gs with
  | nil =>
    intro n p hp
    simp [deepPhasesAux] at hp
  | cons g gs ih =>
    intro n p hp
    obtain ⟨agents, name, descr⟩ := g
    simp only [deepPhasesAux] at hp
    by_cases hb : (agents.filter fun a => required.contains a).isEmpty = true
    · rw [if_pos hb] at hp
      exact ih n p hp
    · rw [if_neg hb] at hp
      rcases List.mem_cons.mp hp with h | h
      · subst h
        rfl
      · exact ih (n + 1) p h

theorem decomposeTask_executions (cfg : ModeConfig) :
    ∀ p ∈ decomposeTask cfg, p.executions = [] := by
  intro p hp
  simp only [decomposeTask] at hp
  by_cases h : cfg.decompositionDepth = "shallow"
  · rw [if_pos h] at hp
    simp only [List.mem_singleton] at hp
    subst hp
    rfl
  · rw [if_neg h] at hp
    exact deepPhasesAux_executions cfg.requiredAgents phaseGroups 1 p hp

theorem sum_tok_zero (l : List PhaseState) (h : ∀ p ∈ l, p.executions = []) :
    (l.map phaseTok).sum = 0 := by
  induction l with
  | nil => simp
  | cons p t ih =>
    simp only [List.map_cons, List.sum_cons]
    rw [ih fun q hq => h q (List.mem_cons_of_mem p hq)]
    have hp := h p (List.mem_cons_self p t)
    simp [phaseTok, hp]

theorem sum_cost_zero (l : List PhaseState) (h : ∀ p ∈ l, p.executions = []) :
    (l.map phaseCost).sum = 0 := by
  induction l with
  | nil => simp
  | cons p t ih =>
    simp only [List.map_cons, List.sum_cons]
    rw [ih fun q hq => h q (List.mem_cons_of_mem p hq)]
    have hp := h p (List.mem_cons_self p t)
    simp [phaseCost, hp]

theorem startTask_inv (st : TaskState) (ctx : Ctx) (hinv : accountingInvariant st) :
    accountingInvariant (startTask st ctx).1 ∧ EvExt ctx (startTask st ctx).2 := by
  have h1 : accountingInvariant (startTask st ctx).1 := hinv
  exact ⟨h1, EvExt_emit_of ctx (tick ctx) rfl _ _ none h1⟩

theorem decomposeStep_inv (st : TaskState) (ctx : Ctx)
    (htok : st.tokens_used = 0) (hcost : st.estimated_cost = 0) :
    accountingInvariant (decomposeStep st ctx).1 ∧ EvExt ctx (decomposeStep st ctx).2 := by
  have h1 : accountingInvariant (decomposeStep st ctx).1 := by
    refine ⟨?_, ?_⟩
    · simp only [decomposeStep, taskTok]
      rw [htok]
      exact (sum_tok_zero _ (decomposeTask_executions _)).symm
    · simp only [decomposeStep, taskCost]
      rw [hcost]
      exact (sum_cost_zero _ (decomposeTask_executions _)).symm
  exact ⟨h1, EvExt_emit_of ctx ctx rfl _ _ none h1⟩

theorem finishTask_inv (out : TaskState × Ctx) (hinv : accountingInvariant out.1) :
    accountingInvariant (finishTask out).1 ∧ EvExt out.2 (finishTask out).2 := by
  by_cases hb : out.1.status = TaskStatus.running
  · have hep : finishTask out =
        ({ out.1 with status := TaskStatus.completed, completed_at := some out.2.clock },
          emit (tick out.2) "task_completed"
            { out.1 with status := TaskStatus.completed, completed_at := some out.2.clock }
            none) := by
      simp only [finishTask]
      rw [if_pos hb]
    rw [hep]
    have h1 : accountingInvariant ({ out.1 with status := TaskStatus.completed, completed_at := some out.2.clock } : TaskState) := hinv
    exact ⟨h1, EvExt_emit_of out.2 (tick out.2) rfl _ _ none h1⟩
  · have hep : finishTask out = (out.1, emit out.2 "task_completed" out.1 none) := by
      simp only [finishTask]
      rw [if_neg hb]
    rw [hep]
    exact ⟨hinv, EvExt_emit_of out.2 out.2 rfl _ _ none hinv⟩

/-- C10: for every oracle and every freshly submitted task, after the
executor runs the task to its terminal state the accumulators tokens_used
and estimated_cost equal the sums, over all executions with status
completed across all phases, of tokens_input + tokens_output and of cost
(failed executions contribute nothing); and the same invariant holds of
the task state snapshot carried by every event emitted along the way,
which are the externally observable points of the execution. -/
theorem accounting_matches_completed_sums (oracle : Oracle) (tid d m : String)
    (cfg : ModeConfig) (pid : Option String) (pri : Int) (t0 : Nat) (ctx : Ctx) :
    accountingInvariant
      (executeTask oracle (createInitialTaskState tid d m cfg pid pri t0) ctx).1 ∧
    ∃ new, (executeTask oracle (createInitialTaskState tid d m cfg pid pri t0) ctx).2.events
        = ctx.events ++ new ∧ ∀ e ∈ new, accountingInvariant e.snap := by
  have hinit : accountingInvariant (createInitialTaskState tid d m cfg pid pri t0) :=
    ⟨rfl, rfl⟩
  obtain ⟨hi1, he1⟩ := startTask_inv (createInitialTaskState tid d m cfg pid pri t0) ctx hinit
  obtain ⟨hi2, he2⟩ := decomposeStep_inv
    (startTask (createInitialTaskState tid d m cfg pid pri t0) ctx).1
    (startTask (createInitialTaskState tid d m cfg pid pri t0) ctx).2 rfl rfl
  obtain ⟨hi3, he3⟩ := runPhases_inv oracle
    (decomposeStep (startTask (createInitialTaskState tid d m cfg pid pri t0) ctx).1
      (startTask (createInitialTaskState tid d m cfg pid pri t0) ctx).2).1.phases []
    (decomposeStep (startTask (createInitialTaskState tid d m cfg pid pri t0) ctx).1
      (startTask (createInitialTaskState tid d m cfg pid pri t0) ctx).2).1
    (decomposeStep (startTask (createInitialTaskState tid d m cfg pid pri t0) ctx).1
      (startTask (createInitialTaskState tid d m cfg pid pri t0) ctx).2).2
    (List.nil_append _).symm hi2
  obtain ⟨hi4, he4⟩ := finishTask_inv
    (runPhases oracle []
      (decomposeStep (startTask (createInitialTaskState tid d m cfg pid pri t0) ctx).1
        (startTask (createInitialTaskState tid d m cfg pid pri t0) ctx).2).1.phases
      (decomposeStep (startTask (createInitialTaskState tid d m cfg pid pri t0) ctx).1
        (startTask (createInitialTaskState tid d m cfg pid pri t0) ctx).2).1
      (decomposeStep (startTask (createInitialTaskState tid d m cfg pid pri t0) ctx).1
        (startTask (createInitialTaskState tid d m cfg pid pri t0) ctx).2).2) hi3
  exact ⟨hi4, EvExt_trans (EvExt_trans he1 he2) (EvExt_trans he3 he4)⟩

/-- C1: on a task whose single phase fails, the executor does break the
phase loop and set the task status to failed, but the terminal event it
emits is named task_completed, not task_failed: the final emit of
_execute_task is unconditional on the non-exception path, so no
task_failed event is ever emitted for a phase failure. -/
theorem phase_failure_terminal_event_bug :
    (executeTask oracleErr speedTask0 ctx0).1.status = TaskStatus.failed ∧
    ((executeTask oracleErr speedTask0 ctx0).2.events.map Event.name).getLast? =
      some "task_completed" ∧
    (∀ e ∈ (executeTask oracleErr speedTask0 ctx0).2.events, e.name ≠ "task_failed") := by
  decide

/-- C2: a task that fails because its phase failed ends with status
failed but with completed_at still unset: the phase-failure break of
_execute_task skips the completed_at assignment, which only the
all-phases-succeeded branch and the exception handler perform. -/
theorem phase_failure_completed_at_bug :
    (executeTask oracleErr speedTask0 ctx0).1.status = TaskStatus.failed ∧
    (executeTask oracleErr speedTask0 ctx0).1.completed_at = none := by
  decide

/-- C3 counterexample: submitting with the unregistered mode name NOPE
does create task state, contradicting the claim that such a submit fails
with UnknownMode and creates no task state. -/
theorem submit_unknown_mode_creates_task_cex :
    (dictGet (submitTask engine0 "t1" "d" (some "NOPE") none 0).2.active_tasks "t1").isSome =
      true ∧
    (submitTask engine0 "t1" "d" (some "NOPE") none 0).1.mode_config = qualityConfig := by
  decide

/-- C3 amended: a submit whose nonempty mode argument is not in the
registry does not fail; it creates a pending task recorded under that
mode name but carrying the QUALITY mode config, the dict-get default of
submit_task. -/
theorem submit_unknown_mode_uses_quality (eng : EngineState) (tid d : String)
    (pid : Option String) (pri : Int) (m : String)
    (hm : modeConfigsGet m = none) (hne : m ≠ "") :
    (submitTask eng tid d (some m) pid pri).1.mode_config = qualityConfig ∧
    (submitTask eng tid d (some m) pid pri).1.mode = m ∧
    (submitTask eng tid d (some m) pid pri).1.status = TaskStatus.pending ∧
    dictGet (submitTask eng tid d (some m) pid pri).2.active_tasks tid =
      some (submitTask eng tid d (some m) pid pri).1 := by
  simp [submitTask, hne, hm, createInitialTaskState, dictGet_dictSet_self]

/-- C3 witness: the amended theorem applied at the concrete unregistered
mode name TURBO on a fresh engine. -/
theorem submit_unknown_mode_uses_quality_witness :
    (submitTask engine0 "t9" "d" (some "TURBO") none 0).1.mode_config = qualityConfig ∧
    (submitTask engine0 "t9" "d" (some "TURBO") none 0).1.mode = "TURBO" ∧
    (submitTask engine0 "t9" "d" (some "TURBO") none 0).1.status = TaskStatus.pending ∧
    dictGet (submitTask engine0 "t9" "d" (some "TURBO") none 0).2.active_tasks "t9" =
      some (submitTask engine0 "t9" "d" (some "TURBO") none 0).1 :=
  submit_unknown_mode_uses_quality engine0 "t9" "d" none 0 "TURBO" (by decide) (by decide)

/-- C4 counterexample: a second submit with the same task id neither
fails nor leaves the first task state unchanged: after submitting t1
twice, the stored description is the one of the second submit and the
queue holds the id twice. -/
theorem duplicate_submit_overwrites_cex :
    (dictGet (submitTask (submitTask engine0 "t1" "first" none none 0).2
        "t1" "second" none none 5).2.active_tasks "t1").map (fun s => s.description) =
      some "second" ∧
    (submitTask (submitTask engine0 "t1" "first" none none 0).2
        "t1" "second" none none 5).2.task_queue = ["t1", "t1"] := by
  decide

/-- C4 amended: a second submit with a live task id does not fail with
DuplicateTask; it replaces the stored state with the freshly created
pending state of the second submit and appends the id to the queue a
second time. -/
theorem duplicate_submit_replaces_state (eng : EngineState) (tid d : String)
    (m : Option String) (pid : Option String) (pri : Int)
    (_hlive : (dictGet eng.active_tasks tid).isSome = true) :
    dictGet (submitTask eng tid d m pid pri).2.active_tasks tid =
      some (submitTask eng tid d m pid pri).1 ∧
    (submitTask eng tid d m pid pri).1.status = TaskStatus.pending ∧
    (submitTask eng tid d m pid pri).1.phases = [] ∧
    (submitTask eng tid d m pid pri).2.task_queue.count tid =
      eng.task_queue.count tid + 1 := by
  refine ⟨?_, rfl, rfl, ?_⟩
  · simp [submitTask, dictGet_dictSet_self]
  · simp [submitTask, sortByPriority_count]

/-- C4 witness: the amended theorem applied to an engine that already
holds a live task t1. -/
theorem duplicate_submit_replaces_state_witness :
    ((dictGet (submitTask engine0 "t1" "first" none none 0).2.active_tasks "t1").isSome =
      true) ∧
    (dictGet (submitTask (submitTask engine0 "t1" "first" none none 0).2
        "t1" "second" none none 5).2.active_tasks "t1" =
      some (submitTask (submitTask engine0 "t1" "first" none none 0).2
        "t1" "second" none none 5).1 ∧
    (submitTask (submitTask engine0 "t1" "first" none none 0).2
        "t1" "second" none none 5).1.status = TaskStatus.pending ∧
    (submitTask (submitTask engine0 "t1" "first" none none 0).2
        "t1" "second" none none 5).1.phases = [] ∧
    (submitTask (submitTask engine0 "t1" "first" none none 0).2
        "t1" "second" none none 5).2.task_queue.count "t1" =
      (submitTask engine0 "t1" "first" none none 0).2.task_queue.count "t1" + 1) :=
  ⟨by decide,
   duplicate_submit_replaces_state (submitTask engine0 "t1" "first" none none 0).2
     "t1" "second" none none 5 (by decide)⟩

/-- C5 counterexample: cancelled is not among the statuses cancel_task
treats as terminal, so a second cancel of an already cancelled task
returns true, contradicting the claim that it returns false. -/
theorem second_cancel_returns_true_cex :
    (cancelTask (cancelTask (submitTask engine0 "t1" "d" none none 0).2 "t1").2 "t1").1 =
      true := by
  decide

/-- C5 amended: cancel returns true exactly when the task exists and its
status is neither completed nor failed; absent tasks and tasks in status
completed or failed yield false, but a task already cancelled is
cancelled again and yields true. -/
theorem cancel_true_iff_not_completed_nor_failed (eng : EngineState) (tid : String) :
    (cancelTask eng tid).1 = true ↔
      ∃ st, dictGet eng.active_tasks tid = some st ∧
        st.status ≠ TaskStatus.completed ∧ st.status ≠ TaskStatus.failed := by
  unfold cancelTask
  split
  · rename_i h
    simp [h]
  · rename_i st h
    split
    · rename_i hs
      constructor
      · intro hfalse; simp at hfalse
      · rintro ⟨st2, hst2, hc, hf⟩
        rw [h, Option.some_inj] at hst2
        subst hst2
        rcases hs with h1 | h1
        · exact absurd h1 hc
        · exact absurd h1 hf
    · rename_i hs
      constructor
      · intro _
        exact ⟨st, h, fun h1 => hs (Or.inl h1), fun h1 => hs (Or.inr h1)⟩
      · intro _; rfl

/-- C6 counterexample: the single Execution phase produced for the SPEED
mode carries parallel flag true, because the shallow branch sets the flag
to the aggressive test regardless of the number of agents, contradicting
the claim that the flag is false. -/
theorem speed_shallow_parallel_flag_cex :
    ((decomposeTask speedConfig).map fun p => p.parallel) = [true] := by
  decide

theorem executeAgent_err_chars (oracle : Oracle) (done rest : List PhaseState)
    (a : String) (st : TaskState) (ph : PhaseState) (ctx : Ctx) (msg : String)
    (h : oracle ctx.calls = Except.error msg) :
    ∃ ex ev1 ev2,
      (executeAgent oracle done rest a st ph ctx).2.1.executions = ph.executions ++ [ex] ∧
      (executeAgent oracle done rest a st ph ctx).2.2.events = ctx.events ++ [ev1, ev2] ∧
      ex.agent_type = a ∧ ex.status = ExecStatus.failed ∧
      ev1.name = "agent_started" ∧ ev1.agent = some a ∧ ev2.name = "agent_completed" := by
  simp only [executeAgent, tick, emit, setLast, h, List.dropLast_concat, List.append_assoc,
    List.singleton_append]
  exact ⟨_, _, _, rfl, rfl, rfl, rfl, rfl, rfl, rfl⟩

theorem executeAgent_ok_chars (oracle : Oracle) (done rest : List PhaseState)
    (a : String) (st : TaskState) (ph : PhaseState) (ctx : Ctx) (r : ProviderResult)
    (h : oracle ctx.calls = Except.ok r) :
    ∃ ex ev1 ev2,
      (executeAgent oracle done rest a st ph ctx).2.1.executions = ph.executions ++ [ex] ∧
      (executeAgent oracle done rest a st ph ctx).2.2.events = ctx.events ++ [ev1, ev2] ∧
      ex.agent_type = a ∧ ex.status = ExecStatus.completed ∧
      ev1.name = "agent_started" ∧ ev1.agent = some a ∧ ev2.name = "agent_completed" := by
  simp only [executeAgent, tick, emit, setLast, h, List.dropLast_concat, List.append_assoc,
    List.singleton_append]
  exact ⟨_, _, _, rfl, rfl, rfl, rfl, rfl, rfl, rfl⟩

theorem runSeqAgents_chars (oracle : Oracle) (done rest : List PhaseState) :
    ∀ (agents : List String) (st : TaskState) (ph : PhaseState) (ctx : Ctx),
      ∃ exs new,
        (runSeqAgents oracle done rest agents st ph ctx).2.1.executions
            = ph.executions ++ exs ∧
        (runSeqAgents oracle done rest agents st ph ctx).2.2.events
            = ctx.events ++ new ∧
        exs.map (fun e => e.agent_type) = agents.take exs.length ∧
        (∀ e ∈ exs.dropLast, e.status ≠ ExecStatus.failed) ∧
        (new.filter fun ev => ev.name == "agent_started").map (fun ev => ev.agent)
            = exs.map (fun e => some e.agent_type) := by
  intro agents
  induction agents with
  | nil =>
    intro st ph ctx
    exact ⟨[], [], by simp [runSeqAgents], by simp [runSeqAgents], rfl, by simp, rfl⟩
  | cons a more ih =>
    intro st ph ctx
    cases h : oracle ctx.calls with
    | error msg =>
      obtain ⟨ex, ev1, ev2, hexs, hevs, hat, hst, hn1, ha1, hn2⟩ :=
        executeAgent_err_chars oracle done rest a st ph ctx msg h
      have hrun : runSeqAgents oracle done rest (a :: more) st ph ctx
          = executeAgent oracle done rest a st ph ctx := by
        simp only [runSeqAgents, hexs, List.getLast?_concat, hst, if_pos]
      refine ⟨[ex], [ev1, ev2], ?_, ?_, ?_, ?_, ?_⟩
      · rw [hrun, hexs]
      · rw [hrun, hevs]
      · simp [hat]
      · simp
      · simp [hn1, hn2, ha1, hat]
    | ok r =>
      obtain ⟨ex, ev1, ev2, hexs, hevs, hat, hst, hn1, ha1, hn2⟩ :=
        executeAgent_ok_chars oracle done rest a st ph ctx r h
      have hrun : runSeqAgents oracle done rest (a :: more) st ph ctx
          = runSeqAgents oracle done rest more
              (executeAgent oracle done rest a st ph ctx).1
              (executeAgent oracle done rest a st ph ctx).2.1
              (executeAgent oracle done rest a st ph ctx).2.2 := by
        simp only [runSeqAgents, hexs, List.getLast?_concat, hst]
        simp
      obtain ⟨exs2, new2, hexs2, hevs2, hmap2, hdrop2, hfil2⟩ :=
        ih (executeAgent oracle done rest a st ph ctx).1
          (executeAgent oracle done rest a st ph ctx).2.1
          (executeAgent oracle done rest a st ph ctx).2.2
      refine ⟨ex :: exs2, ev1 :: ev2 :: new2, ?_, ?_, ?_, ?_, ?_⟩
      · rw [hrun, hexs2, hexs]
        simp
      · rw [hrun, hevs2, hevs]
        simp
      · simp only [List.map_cons, List.length_cons, List.take_succ_cons, hat, hmap2]
      · intro e he
        cases exs2 with
        | nil => simp at he
        | cons b l =>
          rw [List.dropLast_cons₂] at he
          rcases List.mem_cons.mp he with h1 | h1
          · subst h1
            rw [hst]
            intro hcontra
            cases hcontra
          · exact hdrop2 e h1
      · simp only [List.filter_cons, hn1, hn2, ha1, hat]
        simp only [List.map_cons, hfil2]
        simp [hn1, hn2, ha1, hat]
        exact hfil2

/-- C8: in a sequential (non-parallel) phase starting with no execution
records, the records appended by the phase runner follow the declared
agent order as a prefix of the agent list, every record before the last
is non-failed (so once an agent fails nothing later in the phase gets a
record), and the agent_started events emitted during the phase are
exactly one per appended record, in order. -/
theorem sequential_stop_on_failure (oracle : Oracle) (done rest : List PhaseState)
    (st : TaskState) (ph : PhaseState) (ctx : Ctx)
    (hseq : ph.parallel = false) (hfresh : ph.executions = []) :
    ∃ new,
      (executePhase oracle done rest st ph ctx).2.2.events = ctx.events ++ new ∧
      (executePhase oracle done rest st ph ctx).2.1.executions.map (fun e => e.agent_type)
          = ph.agents.take (executePhase oracle done rest st ph ctx).2.1.executions.length ∧
      (∀ e ∈ (executePhase oracle done rest st ph ctx).2.1.executions.dropLast,
          e.status ≠ ExecStatus.failed) ∧
      (new.filter fun ev => ev.name == "agent_started").map (fun ev => ev.agent)
          = (executePhase oracle done rest st ph ctx).2.1.executions.map
              (fun e => some e.agent_type) := by
  obtain ⟨exs, new1, h1, h2, h3, h4, h5⟩ :=
    runSeqAgents_chars oracle done rest ph.agents
      (startPhase done rest st ph ctx).1 (startPhase done rest st ph ctx).2.1
      (startPhase done rest st ph ctx).2.2
  have hep : executePhase oracle done rest st ph ctx =
      finishPhase done rest (runSeqAgents oracle done rest ph.agents
        (startPhase done rest st ph ctx).1 (startPhase done rest st ph ctx).2.1
        (startPhase done rest st ph ctx).2.2) := by
    simp only [executePhase]
    rw [if_neg]
    simp [hseq]
  have hsx : (startPhase done rest st ph ctx).2.1.executions = [] := by
    simp [startPhase, hfresh]
  have hsev : (startPhase done rest st ph ctx).2.2.events =
      ctx.events ++ [⟨"phase_started", (startPhase done rest st ph ctx).1, none⟩] := by
    simp [startPhase, emit, tick]
  rw [hsx, List.nil_append] at h1
  rw [hsev] at h2
  set out := runSeqAgents oracle done rest ph.agents
    (startPhase done rest st ph ctx).1 (startPhase done rest st ph ctx).2.1
    (startPhase done rest st ph ctx).2.2 with hout
  have hfx : (finishPhase done rest out).2.1.executions = out.2.1.executions := rfl
  have hfev : (finishPhase done rest out).2.2.events =
      out.2.2.events ++ [⟨"phase_completed", (finishPhase done rest out).1, none⟩] := rfl
  refine ⟨⟨"phase_started", (startPhase done rest st ph ctx).1, none⟩ ::
      (new1 ++ [⟨"phase_completed", (finishPhase done rest out).1, none⟩]), ?_, ?_, ?_, ?_⟩
  · rw [hep, hfev, h2]
    simp
  · rw [hep, hfx, h1]
    exact h3
  · rw [hep, hfx, h1]
    exact h4
  · rw [hep, hfx, h1]
    simp only [List.filter_cons, List.filter_append]
    simp only [show (("phase_started" : String) == "agent_started") = false from rfl,
      show (("phase_completed" : String) == "agent_started") = false from rfl]
    simpa using h5

/-- C8 witness: the theorem applied to a fresh two-agent sequential phase
of a SPEED task with the always-raising provider oracle. -/
theorem sequential_stop_on_failure_witness :
    (createPhaseState 1 "Execution" "Execute all agents" ["implement", "test"]
        false).parallel = false ∧
    (createPhaseState 1 "Execution" "Execute all agents" ["implement", "test"]
        false).executions = [] ∧
    (∃ new,
      (executePhase oracleErr [] [] speedTask0
          (createPhaseState 1 "Execution" "Execute all agents" ["implement", "test"] false)
          ctx0).2.2.events = ctx0.events ++ new ∧
      (executePhase oracleErr [] [] speedTask0
          (createPhaseState 1 "Execution" "Execute all agents" ["implement", "test"] false)
          ctx0).2.1.executions.map (fun e => e.agent_type)
          = (createPhaseState 1 "Execution" "Execute all agents" ["implement", "test"]
              false).agents.take
              (executePhase oracleErr [] [] speedTask0
                (createPhaseState 1 "Execution" "Execute all agents" ["implement", "test"]
                  false) ctx0).2.1.executions.length ∧
      (∀ e ∈ (executePhase oracleErr [] [] speedTask0
          (createPhaseState 1 "Execution" "Execute all agents" ["implement", "test"] false)
          ctx0).2.1.executions.dropLast, e.status ≠ ExecStatus.failed) ∧
      (new.filter fun ev => ev.name == "agent_started").map (fun ev => ev.agent)
          = (executePhase oracleErr [] [] speedTask0
              (createPhaseState 1 "Execution" "Execute all agents" ["implement", "test"]
                false) ctx0).2.1.executions.map (fun e => some e.agent_type)) :=
  ⟨rfl, rfl,
   sequential_stop_on_failure oracleErr [] [] speedTask0
     (createPhaseState 1 "Execution" "Execute all agents" ["implement", "test"] false)
     ctx0 rfl rfl⟩

/-- C9: when the provider call of an agent run raises, the appended
execution record ends failed carrying the error message, and the
task-level accumulators tokens_used and estimated_cost and the results
mapping are exactly what they were before the call. -/
theorem provider_error_preserves_accumulators (oracle : Oracle)
    (done rest : List PhaseState) (a : String) (st : TaskState) (ph : PhaseState)
    (ctx : Ctx) (msg : String) (h : oracle ctx.calls = Except.error msg) :
    (executeAgent oracle done rest a st ph ctx).1.tokens_used = st.tokens_used ∧
    (executeAgent oracle done rest a st ph ctx).1.estimated_cost = st.estimated_cost ∧
    (executeAgent oracle done rest a st ph ctx).1.results = st.results ∧
    ∃ e, (executeAgent oracle done rest a st ph ctx).2.1.executions = ph.executions ++ [e] ∧
      e.status = ExecStatus.failed ∧ e.error = some msg ∧ e.agent_type = a := by
  simp only [executeAgent, tick, emit, setLast, h, List.dropLast_concat]
  refine ⟨trivial, trivial, trivial, ?_⟩
  exact ⟨_, rfl, rfl, rfl, rfl⟩

/-- C9 witness: the theorem applied to the implement agent of a fresh
SPEED task with the always-raising provider oracle. -/
theorem provider_error_preserves_accumulators_witness :
    oracleErr ctx0.calls = Except.error "provider down" ∧
    ((executeAgent oracleErr [] [] "implement" speedTask0
        (createPhaseState 1 "Execution" "Execute all agents" ["implement"] false)
        ctx0).1.tokens_used = speedTask0.tokens_used ∧
    (executeAgent oracleErr [] [] "implement" speedTask0
        (createPhaseState 1 "Execution" "Execute all agents" ["implement"] false)
        ctx0).1.estimated_cost = speedTask0.estimated_cost ∧
    (executeAgent oracleErr [] [] "implement" speedTask0
        (createPhaseState 1 "Execution" "Execute all agents" ["implement"] false)
        ctx0).1.results = speedTask0.results ∧
    ∃ e, (executeAgent oracleErr [] [] "implement" speedTask0
        (createPhaseState 1 "Execution" "Execute all agents" ["implement"] false)
        ctx0).2.1.executions =
          (createPhaseState 1 "Execution" "Execute all agents" ["implement"] false).executions
            ++ [e] ∧
      e.status = ExecStatus.failed ∧ e.error = some "provider down" ∧
      e.agent_type = "implement") :=
  ⟨rfl, provider_error_preserves_accumulators oracleErr [] [] "implement" speedTask0
    (createPhaseState 1 "Execution" "Execute all agents" ["implement"] false)
    ctx0 "provider down" rfl⟩

theorem deepPhasesAux_spec (required : List String) :
    ∀ (gs : List (List String × String × String)) (n : Nat),
      (deepPhasesAux required gs n).map phaseSig =
        (((gs.map fun g => (g.2.1, g.1.filter fun a => a ∈ required)).filter
            fun g => !g.2.isEmpty).enumFrom n).map
          fun p => ⟨p.1, p.2.1, p.2.2, p.2.2.length > 1⟩ := by
  intro gs
  induction gs with
  | nil => intro n; rfl
  | cons g gs ih =>
    intro n
    obtain ⟨agents, name, descr⟩ := g
    have hf : (agents.filter fun a => decide (a ∈ required)) =
        agents.filter fun a => required.contains a := by
      simp [List.contains, List.elem_eq_mem]
    simp only [deepPhasesAux, List.map_cons, List.filter_cons]
    cases hb : (agents.filter fun a => required.contains a).isEmpty with
    | true =>
      simp only [hf, hb, Bool.not_true, Bool.false_eq_true, if_false, eq_self_iff_true,
        if_true]
      exact ih n
    | false =>
      simp only [hf, hb, Bool.not_false, Bool.false_eq_true, if_false, eq_self_iff_true,
        if_true, List.enumFrom, List.map_cons]
      refine congrArg₂ List.cons ?_ (ih (n + 1))
      simp [phaseSig, createPhaseState]

/-- C7: for every mode config of deep decomposition depth, the phases
produced by the decomposer are, signature for signature (number, name,
agents, parallel flag), exactly those described by the specification:
intersect required_agents with the eight canonical groups in order, skip
empty intersections, number consecutively from 1, and set parallel
exactly when a phase holds more than one agent. -/
theorem deep_decomposition_matches_spec (cfg : ModeConfig)
    (h : cfg.decompositionDepth = "deep") :
    (decomposeTask cfg).map phaseSig = specDeepPhases cfg.requiredAgents := by
  simp only [decomposeTask, h]
  rw [if_neg (by decide)]
  rw [deepPhasesAux_spec]
  simp only [specDeepPhases, specGroupTable, phaseGroups, List.map_cons, List.map_nil]

/-- C7 witness: the refinement theorem applied to the QUALITY mode
config. -/
theorem deep_decomposition_matches_spec_witness :
    (decomposeTask qualityConfig).map phaseSig =
      specDeepPhases qualityConfig.requiredAgents :=
  deep_decomposition_matches_spec qualityConfig rfl

/-- C6 amended: for the SPEED mode (shallow depth, one required agent)
the decomposer produces exactly one phase named Execution containing the
implement agent, with parallel flag true since the parallelization level
is aggressive; the phase is nonetheless executed on the sequential
branch, which the phase runner takes whenever a phase has at most one
agent. -/
theorem speed_shallow_single_phase :
    (decomposeTask speedConfig).map phaseSig = [⟨1, "Execution", ["implement"], true⟩] ∧
    (∀ ph ∈ decomposeTask speedConfig, ¬ (ph.parallel ∧ ph.agents.length > 1)) := by
  decide

end Orch
